import Mathlib

/-!
Shallow embedding of the computation-graph core of `darch/core.py`.

Graph entities (modules, inputs, outputs, hyperparameters) are identified by
natural numbers.  The mutable object graph of the Python code becomes an
explicit `Graph` state record; mutation of a field of an object becomes a
pointwise update of the corresponding function field.  Python `assert`
failures (and uncaught exceptions) are modelled by `Option`/error results.
Python `for x in xs` loops that mutate `xs` while iterating are modelled
faithfully as index-based loops re-reading the (possibly changed) list each
step, exactly as the CPython iterator protocol does for lists.
-/

namespace DArch

abbrev ModuleId := Nat
abbrev InputId := Nat
abbrev OutputId := Nat
abbrev HypId := Nat

/-- Pointwise update of a function field, modelling assignment to an
attribute of one object identified by a key. -/
def updateFn (f : Nat → α) (k : Nat) (v : α) : Nat → α :=
  fun x => if x = k then v else f x

/-- The `add` operation of the `OrderedSet` class in `core.py`: append only
if not already present (insertion order preserved, duplicates dropped). -/
def osAdd (l : List Nat) (x : Nat) : List Nat :=
  if x ∈ l then l else l ++ [x]

/-- The whole object graph at one instant.  `modules` lists every module in
the scope (used only to compute a sufficient iteration budget for the
worklist loops, which in the Python code terminate because the graph is
finite).  `fromOutput` is `Input.from_output`, `toInputs` is
`Output.to_inputs`, `moduleInputs`/`moduleOutputs`/`moduleHyperps` are the
values (in insertion order) of the `OrderedDict`s `Module.inputs`,
`Module.outputs`, `Module.hyperps`, `inputModule`/`outputModule` are
`Input.module`/`Output.module`, and `hypSet` is `Hyperparameter.set_done`. -/
@[ext]
structure Graph where
  modules : List ModuleId
  inputModule : InputId → ModuleId
  outputModule : OutputId → ModuleId
  moduleInputs : ModuleId → List InputId
  moduleOutputs : ModuleId → List OutputId
  moduleHyperps : ModuleId → List HypId
  fromOutput : InputId → Option OutputId
  toInputs : OutputId → List InputId
  hypSet : HypId → Bool

/-- `Input.connect` from `core.py`: asserts the input is unconnected, then
sets the back reference and appends the input to the output's fan-out list.
The `isinstance(from_output, Output)` assert is handled by typing here (see
`connectDispatch` for the dynamically-typed entry point). -/
def Input.connect (g : Graph) (i : InputId) (o : OutputId) : Option Graph :=
  if g.fromOutput i = none then
    some { g with
      fromOutput := updateFn g.fromOutput i (some o)
      toInputs := updateFn g.toInputs o (g.toInputs o ++ [i]) }
  else none

/-- `Input.disconnect` from `core.py`: asserts the input is connected,
removes the first occurrence of the input from its output's fan-out list
(`list.remove`), and clears the back reference. -/
def Input.disconnect (g : Graph) (i : InputId) : Option Graph :=
  match g.fromOutput i with
  | none => none
  | some o =>
      some { g with
        fromOutput := updateFn g.fromOutput i none
        toInputs := updateFn g.toInputs o ((g.toInputs o).erase i) }

/-- A dynamically-typed port value, for modelling the duck-typed dispatch of
`Output.connect(to_input)`, whose body is `to_input.connect(self)`. -/
inductive Port where
  | inp (i : InputId)
  | out (o : OutputId)

/-- Dynamic dispatch of `receiver.connect(arg)` exactly as Python resolves
it: an `Input` receiver runs `Input.connect`, whose
`isinstance(arg, Output)` assert fails on an `Input` argument; an `Output`
receiver runs `Output.connect`, whose body is `arg.connect(receiver)`.  The
`fuel` argument is CPython's recursion limit: two `Output`s dispatched at
each other recurse forever at the language level and CPython aborts the
call with `RecursionError` (modelled as `none`) when the limit is hit. -/
def connectDispatch (g : Graph) : Nat → Port → Port → Option Graph
  | _, .inp _, .inp _ => none
  | _, .inp i, .out o => Input.connect g i o
  | 0, .out _, _ => none
  | fuel + 1, .out o, p => connectDispatch g fuel p (.out o)

/-- The loop body of `Output.reroute_all_connected_inputs` in `core.py`:

    for ix in self.to_inputs:
        ix.disconnect()
        ix.connect(from_output)

CPython iterates a list by index, re-checking the current length each step;
`ix.disconnect()` removes `ix` from the very list being iterated, so the
loop is modelled as an index-based walk over the live list.  `fuel` is a
step budget; `(g.toInputs o).length + 1` always suffices because the index
grows by one per step while the list never grows past its initial length
(`disconnect` shortens it; `connect` re-extends it only when `o2 = o`). -/
def rerouteLoop (g : Graph) (o o2 : OutputId) : Nat → Nat → Option Graph
  | _, 0 => none
  | i, fuel + 1 =>
      let l := g.toInputs o
      if h : i < l.length then
        let ix := l[i]
        match Input.disconnect g ix with
        | none => none
        | some g1 =>
            match Input.connect g1 ix o2 with
            | none => none
            | some g2 => rerouteLoop g2 o o2 (i + 1) fuel
      else some g

/-- `Output.reroute_all_connected_inputs` from `core.py`. -/
def Output.reroute_all_connected_inputs (g : Graph) (o o2 : OutputId) : Option Graph :=
  rerouteLoop g o o2 0 ((g.toInputs o).length + 1)

/-- `extract_unique_modules` from `core.py`, at type `Output`: the distinct
owning modules of the given outputs, in first-encountered order
(`OrderedSet` accumulation). -/
def extract_unique_modules (g : Graph) (outs : List OutputId) : List ModuleId :=
  outs.foldl (fun ms ox => osAdd ms (g.outputModule ox)) []

/-- `extract_unique_modules` from `core.py`, at type `Input` (the Python
function is generic over inputs and outputs). -/
def extractUniqueModulesOfInputs (g : Graph) (ins : List InputId) : List ModuleId :=
  ins.foldl (fun ms ix => osAdd ms (g.inputModule ix)) []

/-- One iteration's worklist growth in `traverse_backward`: for each input
of module `m`, if it is connected, the upstream module is appended to the
worklist and the memo set unless already memoised.  The pair is
`(ms, memo)`. -/
def backStep (g : Graph) (m : ModuleId) (p : List ModuleId × List ModuleId) :
    List ModuleId × List ModuleId :=
  (g.moduleInputs m).foldl
    (fun p ix =>
      match g.fromOutput ix with
      | none => p
      | some ox =>
          let mp := g.outputModule ox
          if mp ∈ p.2 then p else (p.1 ++ [mp], p.2 ++ [mp]))
    p

/-- The loop of `traverse_backward` from `core.py`:

    memo = set()
    ms = extract_unique_modules(output_lst)
    for m in ms:
        is_over = fn(m)
        if is_over: break
        else: ... append unmemoised upstream modules to ms ...

`ms` grows while being iterated, so the loop is an index-based walk.  The
visit function threads a state `s` (the Python closures mutate captured
variables) and returns the "stop everything" boolean.  `fuel` is a step
budget; the wrapper passes one that covers every iteration the Python loop
can perform, since each appended module is memoised at most once. -/
def travLoop (g : Graph) {σ : Type} (fn : σ → ModuleId → σ × Bool) :
    Nat → List ModuleId → Nat → List ModuleId → σ → σ
  | 0, _, _, _, s => s
  | fuel + 1, ms, i, memo, s =>
      if h : i < ms.length then
        let m := ms[i]
        let r := fn s m
        if r.2 then r.1
        else
          let p := backStep g m (ms, memo)
          travLoop g fn fuel p.1 (i + 1) p.2 r.1
      else s

/-- `traverse_backward` from `core.py`.  The fuel
`ms.length + g.modules.length + 1` covers the whole Python loop: every
module appended after the seeds enters `memo` (so is appended at most once
and lies among the graph's modules), hence the loop runs at most
`ms.length + g.modules.length` iterations plus the final bounds check. -/
def traverse_backward {σ : Type} (g : Graph) (fn : σ → ModuleId → σ × Bool)
    (outs : List OutputId) (s : σ) : σ :=
  let ms := extract_unique_modules g outs
  travLoop g fn (ms.length + g.modules.length + 1) ms 0 [] s

/-- Whether module `m` has an unset hyperparameter among its declared
dependencies; the loop body of the closure inside `is_specified`. -/
def hasUnsetHyperp (g : Graph) (m : ModuleId) : Bool :=
  (g.moduleHyperps m).any (fun h => !g.hypSet h)

/-- The closure `fn` of `is_specified` in `core.py`: on the first module
with an unset hyperparameter it sets the flag to false and stops the
traversal. -/
def specFn (g : Graph) (s : Bool) (m : ModuleId) : Bool × Bool :=
  if hasUnsetHyperp g m then (false, true) else (s, false)

/-- `is_specified` from `core.py`. -/
def is_specified (g : Graph) (outs : List OutputId) : Bool :=
  traverse_backward g (specFn g) outs true

/-- The loop body of the closure inside `get_unset_hyperparameters`: add
every unset hyperparameter of `m` to the `OrderedSet` accumulator. -/
def collectUnset (g : Graph) (acc : List HypId) (m : ModuleId) : List HypId :=
  (g.moduleHyperps m).foldl (fun a h => if g.hypSet h then a else osAdd a h) acc

/-- The closure `fn` of `get_unset_hyperparameters`: never stops early. -/
def hsFn (g : Graph) (s : List HypId) (m : ModuleId) : List HypId × Bool :=
  (collectUnset g s m, false)

/-- `get_unset_hyperparameters` from `core.py`.  The function begins with
`assert not is_specified(output_lst)`; an `AssertionError` is modelled as
`none`. -/
def get_unset_hyperparameters (g : Graph) (outs : List OutputId) : Option (List HypId) :=
  if is_specified g outs then none
  else some (traverse_backward g (hsFn g) outs [])

/-- A visit function that records each module it is applied to and never
stops: instrumentation used to talk about which modules `traverse_backward`
hands to `fn`, and in which order. -/
def logFn (s : List ModuleId) (m : ModuleId) : List ModuleId × Bool :=
  (s ++ [m], false)

/-- The list of modules, in order and with multiplicity, that
`traverse_backward` applies its visit function to when the function never
asks to stop. -/
def visitedBackward (g : Graph) (outs : List OutputId) : List ModuleId :=
  traverse_backward g logFn outs []

/-- The inputs marked satisfied when a module is appended by
`determine_module_eval_seq`: the concatenation of the connected-inputs
lists of all its outputs (the Python code updates `input_memo` and extends
`ms` output by output; concatenating first is the same net effect). -/
def newSatisfied (g : Graph) (m : ModuleId) : List InputId :=
  (g.moduleOutputs m).foldl (fun a ox => a ++ g.toInputs ox) []

/-- The eligibility test of the loop of `determine_module_eval_seq`:
`m not in module_memo and all(ix in input_memo for ix in m.inputs)`. -/
def eligible (g : Graph) (memo : List ModuleId) (imemo : List InputId)
    (m : ModuleId) : Prop :=
  m ∉ memo ∧ ∀ ix ∈ g.moduleInputs m, ix ∈ imemo

instance (g : Graph) (memo : List ModuleId) (imemo : List InputId) (m : ModuleId) :
    Decidable (eligible g memo imemo m) := by
  unfold eligible
  infer_instance

/-- The loop of `determine_module_eval_seq` from `core.py`:

    for m in ms:
        if m not in module_memo and all(ix in input_memo for ix in m.inputs):
            module_seq.append(m); module_memo.add(m)
            for ox in m.outputs:
                input_memo.update(ox.to_inputs)
                ms.extend(module of each such input)

`ms` grows while being iterated (index-based walk); `input_memo` and
`module_memo` are sets, modelled as lists with membership. -/
def evalLoop (g : Graph) :
    Nat → List ModuleId → Nat → List ModuleId → List InputId → List ModuleId → List ModuleId
  | 0, _, _, _, _, seq => seq
  | fuel + 1, ms, i, memo, imemo, seq =>
      if h : i < ms.length then
        let m := ms[i]
        if eligible g memo imemo m then
          let ixs := newSatisfied g m
          evalLoop g fuel (ms ++ ixs.map g.inputModule) (i + 1)
            (memo ++ [m]) (imemo ++ ixs) (seq ++ [m])
        else
          evalLoop g fuel ms (i + 1) memo imemo seq
      else seq

/-- A step budget covering the whole Python loop of
`determine_module_eval_seq`: the worklist is extended only when a module is
appended to the sequence, which happens at most once per module of the
graph, and each such extension adds at most the total fan-out of that
module's outputs. -/
def evalSeqFuel (g : Graph) (ms0 : Nat) : Nat :=
  ms0 +
    (g.modules.map
      (fun m => ((g.moduleOutputs m).map (fun ox => (g.toInputs ox).length)).sum)).sum
    + 1

/-- `determine_module_eval_seq` from `core.py`. -/
def determine_module_eval_seq (g : Graph) (inputs : List InputId) : List ModuleId :=
  let ms := extractUniqueModulesOfInputs g inputs
  evalLoop g (evalSeqFuel g ms.length) ms 0 [] inputs []

/-- The satisfaction property of an evaluation sequence: every declared
input of the module at position `j` is either a seed input or connected to
an output of a module at a strictly earlier position. -/
def evalSeqOk (g : Graph) (seeds : List InputId) (seq : List ModuleId) : Prop :=
  ∀ (j : Nat) (m : ModuleId), seq[j]? = some m → ∀ ix ∈ g.moduleInputs m,
    ix ∈ seeds ∨ ∃ (k : Nat) (m' : ModuleId), k < j ∧ seq[k]? = some m' ∧
      ∃ ox ∈ g.moduleOutputs m', ix ∈ g.toInputs ox

/-- Invariant of the satisfied-inputs set of `determine_module_eval_seq`:
every satisfied input is a seed or fed by an output of an already-sequenced
module. -/
def imemoOk (g : Graph) (seeds : List InputId) (seq : List ModuleId)
    (imemo : List InputId) : Prop :=
  ∀ ix ∈ imemo, ix ∈ seeds ∨ ∃ m' ∈ seq, ∃ ox ∈ g.moduleOutputs m', ix ∈ g.toInputs ox

/-- State of one `Hyperparameter` object: `set_done`, the stored value
(undefined before assignment, hence `Option`), and the `OrderedSet` of
dependent modules in registration order. -/
structure Hyperp where
  set_done : Bool
  val : Option Nat
  modules : List ModuleId

/-- A hyperparameter as built by `Hyperparameter.__init__`: unset, no
value, no dependent modules. -/
def freshHyperp : Hyperp := { set_done := false, val := none, modules := [] }

/-- `Hyperparameter._register_module` from `core.py`: idempotent
insertion-ordered add of a dependent module. -/
def Hyperparameter.register_module (h : Hyperp) (m : ModuleId) : Hyperp :=
  { h with modules := osAdd h.modules m }

/-- A sequence of `_register_module` calls, in order. -/
def registerAll (h : Hyperp) (regs : List ModuleId) : Hyperp :=
  regs.foldl Hyperparameter.register_module h

/-- The two ways `Hyperparameter.set_val` can raise: the
`assert not self.set_done` (a state error), and `self._check_val(val)` (the
subtype's validation predicate rejecting the value). -/
inductive SetErr where
  | stateError
  | validationError
deriving DecidableEq

/-- `Hyperparameter.set_val` from `core.py`:

    assert not self.set_done
    self._check_val(val)
    self.set_done = True
    self.val = val
    for m in self.modules: m._update()

The subtype's validation predicate `_check_val` is the parameter `check`
(the base class leaves it abstract).  The result is the state in which the
dependent modules' `_update` hooks run, the ordered list of modules whose
hook is invoked before the call returns (`_update` itself is abstract, so
notifications are modelled as this emitted trace), and the error if the
call raised instead — in which case the state is returned unchanged and no
hook runs, exactly as in the Python control flow where both raises precede
every mutation. -/
def Hyperparameter.set_val (check : Nat → Bool) (h : Hyperp) (v : Nat) :
    Hyperp × List ModuleId × Option SetErr :=
  if h.set_done then (h, [], some SetErr.stateError)
  else if check v = false then (h, [], some SetErr.validationError)
  else
    let h' := { h with set_done := true, val := some v }
    (h', h'.modules, none)

/-- State of one `Module` object relevant to `forward`: the
`_is_compiled` flag (false at construction). -/
structure ModState where
  is_compiled : Bool
deriving DecidableEq

/-- Observable steps of `Module.forward`: the `_compile()` call and the
`_forward()` call (both abstract in the base class, so modelled as an
emitted trace). -/
inductive Ev where
  | compile
  | fwd
deriving DecidableEq

/-- `Module.forward` from `core.py`:

    if not self._is_compiled:
        self._compile()
        self._is_compiled = True
    self._forward()
-/
def Module.forward (m : ModState) : ModState × List Ev :=
  if m.is_compiled then (m, [Ev.fwd])
  else ({ is_compiled := true }, [Ev.compile, Ev.fwd])

/-- `n` successive calls of `Module.forward`, collecting the full trace of
compile/forward steps. -/
def Module.forwardN (m : ModState) : Nat → ModState × List Ev
  | 0 => (m, [])
  | n + 1 =>
      let r := Module.forward m
      let r' := Module.forwardN r.1 n
      (r'.1, r.2 ++ r'.2)

/-! Concrete graphs used to evaluate the embedding on specific inputs. -/

/-- A graph exercising `reroute_all_connected_inputs`: output `0` (of module
`0`) is connected to inputs `0` (of module `1`) and `1` (of module `2`), in
that order; output `1` (of module `3`) is unconnected. -/
def gReroute : Graph where
  modules := [0, 1, 2, 3]
  inputModule := fun i => if i = 0 then 1 else if i = 1 then 2 else 0
  outputModule := fun o => if o = 0 then 0 else 3
  moduleInputs := fun m => if m = 1 then [0] else if m = 2 then [1] else []
  moduleOutputs := fun m => if m = 0 then [0] else if m = 3 then [1] else []
  moduleHyperps := fun _ => []
  fromOutput := fun i => if i = 0 then some 0 else if i = 1 then some 0 else none
  toInputs := fun o => if o = 0 then [0, 1] else []
  hypSet := fun _ => true

/-- A two-module graph: module `0` owns output `0`; module `1` owns output
`1` and input `0`, which is connected to output `0`.  So module `0` both
owns a seed output and is upstream of the other seed module.  No
hyperparameters. -/
def gChain2 : Graph where
  modules := [0, 1]
  inputModule := fun _ => 1
  outputModule := fun o => if o = 0 then 0 else 1
  moduleInputs := fun m => if m = 1 then [0] else []
  moduleOutputs := fun m => if m = 0 then [0] else [1]
  moduleHyperps := fun _ => []
  fromOutput := fun i => if i = 0 then some 0 else none
  toInputs := fun o => if o = 0 then [0] else []
  hypSet := fun _ => true

/-- `gChain2` with one unset hyperparameter `0` on module `0`. -/
def gChain2Unset : Graph :=
  { gChain2 with
    moduleHyperps := fun m => if m = 0 then [0] else []
    hypSet := fun _ => false }

/-- A three-module chain `0 → 1 → 2`: module `m` owns input `m` and output
`m`; output `m` feeds input `m + 1`; input `0` is the unconnected seed. -/
def gChain3 : Graph where
  modules := [0, 1, 2]
  inputModule := fun i => i
  outputModule := fun o => o
  moduleInputs := fun m => [m]
  moduleOutputs := fun m => [m]
  moduleHyperps := fun _ => []
  fromOutput := fun i => if i = 0 then none else some (i - 1)
  toInputs := fun o => if o = 2 then [] else [o + 1]
  hypSet := fun _ => true

/-- A graph with one unconnected input `0` (of module `1`) and one output
`0` (of module `0`) with empty fan-out: the precondition state of the
connect/disconnect round trip. -/
def gFree : Graph where
  modules := [0, 1]
  inputModule := fun _ => 1
  outputModule := fun _ => 0
  moduleInputs := fun m => if m = 1 then [0] else []
  moduleOutputs := fun m => if m = 0 then [0] else []
  moduleHyperps := fun _ => []
  fromOutput := fun _ => none
  toInputs := fun _ => []
  hypSet := fun _ => true

/-- `gFree` with input `0` already connected to output `0`. -/
def gTaken : Graph :=
  { gFree with
    fromOutput := fun i => if i = 0 then some 0 else none
    toInputs := fun o => if o = 0 then [0] else [] }

/-! Helper lemmas. -/

/-- Membership is preserved by the `OrderedSet` add operation. -/
theorem mem_osAdd_of_mem {l : List Nat} {x : Nat} (y : Nat) (hx : x ∈ l) :
    x ∈ osAdd l y := by
  unfold osAdd
  split
  · exact hx
  · exact List.mem_append_left _ hx

/-- The added element is a member after the `OrderedSet` add operation. -/
theorem mem_osAdd_self (l : List Nat) (x : Nat) : x ∈ osAdd l x := by
  unfold osAdd
  split
  · assumption
  · exact List.mem_append_right _ (List.mem_singleton.mpr rfl)

/-- The `OrderedSet` add operation preserves distinctness. -/
theorem osAdd_nodup {l : List Nat} (hl : l.Nodup) (x : Nat) : (osAdd l x).Nodup := by
  unfold osAdd
  split
  · exact hl
  · rw [← List.concat_eq_append]
    exact List.Nodup.concat (by assumption) hl

/-- `register_module` changes only the dependent-module set. -/
theorem registerAll_set_done (regs : List ModuleId) :
    ∀ h : Hyperp, (registerAll h regs).set_done = h.set_done := by
  induction regs with
  | nil => intro h; rfl
  | cons r t ih => intro h; exact ih (Hyperparameter.register_module h r)

/-- Registration keeps the dependent-module set free of duplicates. -/
theorem registerAll_nodup (regs : List ModuleId) :
    ∀ h : Hyperp, h.modules.Nodup → (registerAll h regs).modules.Nodup := by
  induction regs with
  | nil => intro h hh; exact hh
  | cons r t ih =>
      intro h hh
      exact ih (Hyperparameter.register_module h r) (osAdd_nodup hh r)

/-- Repeated forward calls on an already compiled module leave it compiled
and emit exactly one forward step per call. -/
theorem forwardN_compiled (n : Nat) :
    Module.forwardN { is_compiled := true } n =
      ({ is_compiled := true }, List.replicate n Ev.fwd) := by
  induction n with
  | zero => rfl
  | succ k ih => simp [Module.forwardN, Module.forward, ih, List.replicate_succ]

/-! Claim theorems. -/

/-- C1: the code of `reroute_all_connected_inputs` iterates over the very
list that `disconnect` mutates, so with output `0` connected to inputs
`[0, 1]` only input `0` is rerouted to output `1`; input `1` is skipped and
stays connected to output `0`.  This contradicts the claim (and the
docstring of the function), which require output `0` to end with no
connected inputs and output `1` to end with `[0, 1]`. -/
theorem reroute_all_connected_inputs_skips_second_input :
    (Output.reroute_all_connected_inputs gReroute 0 1).map
        (fun g => (g.toInputs 0, g.toInputs 1, g.fromOutput 0, g.fromOutput 1)) =
      some ([1], [0], some 1, some 0) := by decide

/-- C2: `traverse_backward` never puts the seed modules in `memo`, so a
module owning a seed output that is also upstream of another seed module is
handed to the visit function twice.  In `gChain2`, traversal from outputs
`[0, 1]` applies the visit function to module `0`, then module `1`, then
module `0` again — `fn` is applied twice to module `0`, contradicting the
claim and the docstring ("applied once to each module"). -/
theorem traverse_backward_visits_seed_module_twice :
    visitedBackward gChain2 [0, 1] = [0, 1, 0] ∧
    (visitedBackward gChain2 [0, 1]).count 0 = 2 := by decide

/-- C5: setting a valid value on an unset hyperparameter (built by any
sequence of `_register_module` calls on a fresh hyperparameter) marks it
set, stores the value, and invokes the update hook of exactly the modules
in the dependent set, in registration order; that set has no duplicates, so
each dependent module is notified exactly once, and each hook runs in the
state in which `is_set` is already true and the stored value is `v`. -/
theorem set_val_notifies_in_order (check : Nat → Bool) (regs : List ModuleId) (v : Nat)
    (hv : check v = true) :
    (registerAll freshHyperp regs).modules.Nodup ∧
    Hyperparameter.set_val check (registerAll freshHyperp regs) v =
      ({ set_done := true, val := some v,
         modules := (registerAll freshHyperp regs).modules },
       (registerAll freshHyperp regs).modules, none) := by
  refine ⟨registerAll_nodup regs freshHyperp List.nodup_nil, ?_⟩
  have hd : (registerAll freshHyperp regs).set_done = false :=
    registerAll_set_done regs freshHyperp
  simp [Hyperparameter.set_val, hd, hv]

/-- Witness for C5 at a concrete registration sequence with a duplicate. -/
theorem set_val_notifies_in_order_witness :
    (registerAll freshHyperp [3, 5, 3]).modules.Nodup ∧
    Hyperparameter.set_val (fun _ => true) (registerAll freshHyperp [3, 5, 3]) 7 =
      ({ set_done := true, val := some 7,
         modules := (registerAll freshHyperp [3, 5, 3]).modules },
       (registerAll freshHyperp [3, 5, 3]).modules, none) :=
  set_val_notifies_in_order (fun _ => true) [3, 5, 3] 7 rfl

/-- C6: a rejected value leaves the hyperparameter exactly as it was (still
unset, no stored value) and notifies no module, and `set_val` on an
already-set hyperparameter fails with the state error before the validation
predicate is even consulted (the equation holds for every `check`). -/
theorem set_val_failure_no_mutation (check : Nat → Bool) (h : Hyperp) (v : Nat) :
    (h.set_done = false → check v = false →
      Hyperparameter.set_val check h v = (h, [], some SetErr.validationError)) ∧
    (h.set_done = true →
      Hyperparameter.set_val check h v = (h, [], some SetErr.stateError)) := by
  constructor
  · intro h1 h2
    simp [Hyperparameter.set_val, h1, h2]
  · intro h1
    simp [Hyperparameter.set_val, h1]

/-- Witness for C6: a failing validation on a fresh hyperparameter, and a
state failure on a set one whose validation predicate would accept. -/
theorem set_val_failure_no_mutation_witness :
    Hyperparameter.set_val (fun _ => false) freshHyperp 0 =
      (freshHyperp, [], some SetErr.validationError) ∧
    Hyperparameter.set_val (fun _ => true)
        { set_done := true, val := some 1, modules := [2] } 0 =
      ({ set_done := true, val := some 1, modules := [2] }, [],
       some SetErr.stateError) :=
  ⟨(set_val_failure_no_mutation (fun _ => false) freshHyperp 0).1 rfl rfl,
   (set_val_failure_no_mutation (fun _ => true)
      { set_done := true, val := some 1, modules := [2] } 0).2 rfl⟩

/-- C7: across any sequence of `forward` calls on a freshly constructed
module, the compile step runs exactly once — on the first call — after
which the compiled flag is true and stays true, while the forward step runs
on every call; and from a compiled state, further calls never compile again
and keep the flag true. -/
theorem forward_compiles_once_then_runs_every_call (n : Nat) :
    Module.forwardN { is_compiled := false } (n + 1) =
      ({ is_compiled := true }, Ev.compile :: Ev.fwd :: List.replicate n Ev.fwd) ∧
    (Module.forwardN { is_compiled := false } (n + 1)).2.count Ev.compile = 1 ∧
    (Module.forwardN { is_compiled := false } (n + 1)).2.count Ev.fwd = n + 1 ∧
    Module.forwardN { is_compiled := true } n =
      ({ is_compiled := true }, List.replicate n Ev.fwd) := by
  have h1 : Module.forwardN { is_compiled := false } (n + 1) =
      ({ is_compiled := true }, Ev.compile :: Ev.fwd :: List.replicate n Ev.fwd) := by
    simp [Module.forwardN, Module.forward, forwardN_compiled n]
  refine ⟨h1, ?_, ?_, forwardN_compiled n⟩
  · rw [h1]
    simp [List.count_cons, List.count_replicate]
  · rw [h1]
    simp [List.count_cons, List.count_replicate]

/-- Erasing the element just appended returns the original list when the
element was not already present (`list.remove` removes by first
occurrence). -/
theorem erase_concat_self {l : List Nat} {a : Nat} (h : a ∉ l) :
    (l ++ [a]).erase a = l := by
  rw [List.erase_append_right _ h, List.erase_cons_head]
  simp

/-- Unfolding of `Input.disconnect` on an input connected to `o`. -/
theorem disconnect_eq_of_connected (g : Graph) (i : InputId) (o : OutputId)
    (h : g.fromOutput i = some o) :
    Input.disconnect g i = some { g with
      fromOutput := updateFn g.fromOutput i none,
      toInputs := updateFn g.toInputs o ((g.toInputs o).erase i) } := by
  unfold Input.disconnect
  rw [h]

/-- C8: connecting an unconnected input `i` to an output `o` whose fan-out
does not already hold `i` (the referential-symmetry invariant of the data
model) succeeds, makes `i` connected to `o`, puts `i` in the fan-out list
of `o` exactly once, and a following disconnect restores the whole graph —
every field of every object — to its pre-connect state. -/
theorem connect_disconnect_round_trip (g : Graph) (i : InputId) (o : OutputId)
    (h1 : g.fromOutput i = none) (h2 : i ∉ g.toInputs o) :
    ∃ g', Input.connect g i o = some g' ∧
      g'.fromOutput i = some o ∧
      (g'.toInputs o).count i = 1 ∧
      Input.disconnect g' i = some g := by
  refine ⟨{ g with
      fromOutput := updateFn g.fromOutput i (some o)
      toInputs := updateFn g.toInputs o (g.toInputs o ++ [i]) }, ?_, ?_, ?_, ?_⟩
  · simp [Input.connect, h1]
  · simp [updateFn]
  · simp [updateFn, List.count_append, List.count_eq_zero.mpr h2]
  · rw [disconnect_eq_of_connected _ i o (by simp [updateFn])]
    congr 1
    ext x
    · rfl
    · rfl
    · rfl
    · rfl
    · rfl
    · rfl
    · simp only [updateFn]
      split
      · next hx => rw [hx, h1]
      · rfl
    · simp only [updateFn]
      split
      · next hx =>
          rw [hx]
          simp [erase_concat_self h2]
      · rfl
    · rfl

/-- Witness for C8 on the concrete free graph. -/
theorem connect_disconnect_round_trip_witness :
    ∃ g', Input.connect gFree 0 0 = some g' ∧
      g'.fromOutput 0 = some 0 ∧
      (g'.toInputs 0).count 0 = 1 ∧
      Input.disconnect g' 0 = some gFree :=
  connect_disconnect_round_trip gFree 0 0 (by decide) (by decide)

/-- Dispatching `connect` between two outputs ping-pongs
(`Output.connect(to_input)` is `to_input.connect(self)`) until the
recursion budget runs out: it returns the recursion error for every budget,
mutating nothing. -/
theorem connectDispatch_out_out_none (g : Graph) :
    ∀ fuel o o', connectDispatch g fuel (Port.out o) (Port.out o') = none := by
  intro fuel
  induction fuel with
  | zero => intro o o'; rfl
  | succ n ih =>
      intro o o'
      show connectDispatch g n (Port.out o') (Port.out o) = none
      exact ih o' o

/-- C9: every `connect` call on an input that already has a connected
output fails (whether entered through `Input.connect` or through
`Output.connect`, which defers to it), and every call with a swapped
argument type fails: an `Input` where `Input.connect` expects an `Output`
trips the isinstance assert, and an `Output` where `Output.connect` expects
an `Input` recurses until CPython's recursion limit aborts it.  In all four
cases the result is an error and the graph is unchanged. -/
theorem connect_fails_when_connected_or_swapped (g : Graph) (fuel : Nat)
    (i i' o o' : Nat) (hc : g.fromOutput i ≠ none) :
    connectDispatch g fuel (Port.inp i) (Port.out o) = none ∧
    connectDispatch g fuel (Port.out o) (Port.inp i) = none ∧
    connectDispatch g fuel (Port.inp i) (Port.inp i') = none ∧
    connectDispatch g fuel (Port.out o) (Port.out o') = none := by
  have hinp : ∀ f, connectDispatch g f (Port.inp i) (Port.out o) = none := by
    intro f
    have hch : Input.connect g i o = none := by simp [Input.connect, hc]
    cases f with
    | zero => exact hch
    | succ n => exact hch
  refine ⟨hinp fuel, ?_, ?_, connectDispatch_out_out_none g fuel o o'⟩
  · cases fuel with
    | zero => rfl
    | succ n => exact hinp n
  · cases fuel <;> rfl

/-- Witness for C9 on the concrete graph whose input `0` is connected. -/
theorem connect_fails_when_connected_or_swapped_witness :
    connectDispatch gTaken 5 (Port.inp 0) (Port.out 0) = none ∧
    connectDispatch gTaken 5 (Port.out 0) (Port.inp 0) = none ∧
    connectDispatch gTaken 5 (Port.inp 0) (Port.inp 1) = none ∧
    connectDispatch gTaken 5 (Port.out 0) (Port.out 1) = none :=
  connect_fails_when_connected_or_swapped gTaken 5 0 1 0 1 (by decide)

/-- Unfolding of `travLoop` at zero fuel. -/
theorem travLoop_zero {σ : Type} (g : Graph) (fn : σ → ModuleId → σ × Bool)
    (ms : List ModuleId) (i : Nat) (memo : List ModuleId) (s : σ) :
    travLoop g fn 0 ms i memo s = s := rfl

/-- Unfolding of `travLoop` at positive fuel. -/
theorem travLoop_succ {σ : Type} (g : Graph) (fn : σ → ModuleId → σ × Bool)
    (fuel : Nat) (ms : List ModuleId) (i : Nat) (memo : List ModuleId) (s : σ) :
    travLoop g fn (fuel + 1) ms i memo s =
      if h : i < ms.length then
        if (fn s (ms[i])).2 then (fn s (ms[i])).1
        else travLoop g fn fuel (backStep g (ms[i]) (ms, memo)).1 (i + 1)
          (backStep g (ms[i]) (ms, memo)).2 (fn s (ms[i])).1
      else s := rfl

/-- One non-stopping iteration of `travLoop`. -/
theorem travLoop_succ_continue {σ : Type} (g : Graph) (fn : σ → ModuleId → σ × Bool)
    (fuel : Nat) (ms : List ModuleId) (i : Nat) (memo : List ModuleId) (s : σ)
    (h : i < ms.length) (hstop : (fn s (ms[i])).2 = false) :
    travLoop g fn (fuel + 1) ms i memo s =
      travLoop g fn fuel (backStep g (ms[i]) (ms, memo)).1 (i + 1)
        (backStep g (ms[i]) (ms, memo)).2 (fn s (ms[i])).1 := by
  rw [travLoop_succ, dif_pos h, hstop]
  simp

/-- The final bounds check of `travLoop`: the loop ends when the index
passes the end of the worklist. -/
theorem travLoop_succ_done {σ : Type} (g : Graph) (fn : σ → ModuleId → σ × Bool)
    (fuel : Nat) (ms : List ModuleId) (i : Nat) (memo : List ModuleId) (s : σ)
    (h : ¬ i < ms.length) :
    travLoop g fn (fuel + 1) ms i memo s = s := by
  rw [travLoop_succ, dif_neg h]

/-- The visit log of the logging traversal only grows. -/
theorem travLoop_log_mono (g : Graph) :
    ∀ fuel ms i memo log x, x ∈ log → x ∈ travLoop g logFn fuel ms i memo log := by
  intro fuel
  induction fuel with
  | zero => intro ms i memo log x hx; exact hx
  | succ n ih =>
      intro ms i memo log x hx
      by_cases h : i < ms.length
      · rw [travLoop_succ_continue g logFn n ms i memo log h rfl]
        exact ih _ _ _ _ x (List.mem_append_left _ hx)
      · rw [travLoop_succ_done g logFn n ms i memo log h]
        exact hx

/-- The accumulator of the unset-hyperparameter fold only grows. -/
theorem mem_unsetFold_of_mem (g : Graph) :
    ∀ (l acc : List HypId) (x : HypId), x ∈ acc →
      x ∈ l.foldl (fun a h => if g.hypSet h then a else osAdd a h) acc := by
  intro l
  induction l with
  | nil => intro acc x hx; exact hx
  | cons hh t ih =>
      intro acc x hx
      rw [List.foldl_cons]
      apply ih
      cases hs : g.hypSet hh
      · simp only [hs, Bool.false_eq_true, if_false]
        exact mem_osAdd_of_mem hh hx
      · simpa [hs] using hx

/-- An unset hyperparameter of the scanned list ends up in the fold result. -/
theorem unset_mem_unsetFold (g : Graph) (x : HypId) (hset : g.hypSet x = false) :
    ∀ (l acc : List HypId), x ∈ l →
      x ∈ l.foldl (fun a h => if g.hypSet h then a else osAdd a h) acc := by
  intro l
  induction l with
  | nil => intro acc hx; cases hx
  | cons hh t ih =>
      intro acc hx
      rw [List.foldl_cons]
      rcases List.mem_cons.mp hx with rfl | hxt
      · apply mem_unsetFold_of_mem
        simp only [hset, Bool.false_eq_true, if_false]
        exact mem_osAdd_self acc x
      · exact ih _ hxt

/-- The collected unset-hyperparameter set of the traversal only grows. -/
theorem travLoop_hs_mono (g : Graph) :
    ∀ fuel ms i memo acc x, x ∈ acc → x ∈ travLoop g (hsFn g) fuel ms i memo acc := by
  intro fuel
  induction fuel with
  | zero => intro ms i memo acc x hx; exact hx
  | succ n ih =>
      intro ms i memo acc x hx
      by_cases h : i < ms.length
      · rw [travLoop_succ_continue g (hsFn g) n ms i memo acc h rfl]
        exact ih _ _ _ _ x (mem_unsetFold_of_mem g _ acc x hx)
      · rw [travLoop_succ_done g (hsFn g) n ms i memo acc h]
        exact hx

/-- If the short-circuiting specification scan comes back false, the full
collecting scan run on the same worklist with the same budget finds at
least one unset hyperparameter: until the specification scan stops, both
walks evolve the worklist and memo identically, and at the stopping module
the collecting scan picks up the very hyperparameter that tripped the
flag. -/
theorem travLoop_spec_false_unset (g : Graph) :
    ∀ fuel ms i memo acc,
      travLoop g (specFn g) fuel ms i memo true = false →
      ∃ x, g.hypSet x = false ∧ x ∈ travLoop g (hsFn g) fuel ms i memo acc := by
  intro fuel
  induction fuel with
  | zero =>
      intro ms i memo acc hF
      exact absurd hF (by simp [travLoop_zero])
  | succ n ih =>
      intro ms i memo acc hF
      by_cases h : i < ms.length
      · cases hu : hasUnsetHyperp g (ms[i])
        · have hF' := hF
          rw [travLoop_succ_continue g (specFn g) n ms i memo true h
            (by simp [specFn, hu])] at hF'
          simp only [specFn, hu, Bool.false_eq_true, if_false] at hF'
          obtain ⟨x, hset, hmem⟩ := ih _ _ _ (collectUnset g acc (ms[i])) hF'
          refine ⟨x, hset, ?_⟩
          rw [travLoop_succ_continue g (hsFn g) n ms i memo acc h rfl]
          exact hmem
        · obtain ⟨x, hxmem, hxunset⟩ :=
            List.any_eq_true.mp hu
          have hset : g.hypSet x = false := by simpa using hxunset
          refine ⟨x, hset, ?_⟩
          rw [travLoop_succ_continue g (hsFn g) n ms i memo acc h rfl]
          exact travLoop_hs_mono g n _ _ _ _ x
            (unset_mem_unsetFold g x hset _ acc hxmem)
      · rw [travLoop_succ_done g (specFn g) n ms i memo true h] at hF
        exact absurd hF (by simp)

/-- If no module the logging traversal reaches has any hyperparameter
dependency, the specification scan on the same worklist with the same
budget never finds an unset hyperparameter and returns true. -/
theorem travLoop_spec_true_of_no_unset (g : Graph) :
    ∀ fuel ms i memo log,
      (∀ m ∈ travLoop g logFn fuel ms i memo log, g.moduleHyperps m = []) →
      travLoop g (specFn g) fuel ms i memo true = true := by
  intro fuel
  induction fuel with
  | zero => intro ms i memo log hall; rfl
  | succ n ih =>
      intro ms i memo log hall
      by_cases h : i < ms.length
      · have hm : (ms[i]) ∈ travLoop g logFn (n + 1) ms i memo log := by
          rw [travLoop_succ_continue g logFn n ms i memo log h rfl]
          exact travLoop_log_mono g n _ _ _ _ _
            (List.mem_append_right _ (List.mem_singleton.mpr rfl))
        have hh : g.moduleHyperps (ms[i]) = [] := hall _ hm
        have hu : hasUnsetHyperp g (ms[i]) = false := by
          simp [hasUnsetHyperp, hh]
        rw [travLoop_succ_continue g (specFn g) n ms i memo true h
          (by simp [specFn, hu])]
        have hall' : ∀ m ∈ travLoop g logFn n
            (backStep g (ms[i]) (ms, memo)).1 (i + 1)
            (backStep g (ms[i]) (ms, memo)).2 (log ++ [ms[i]]),
            g.moduleHyperps m = [] := by
          intro m hm'
          apply hall
          rw [travLoop_succ_continue g logFn n ms i memo log h rfl]
          exact hm'
        have hres := ih _ _ _ _ hall'
        simpa [specFn, hu] using hres
      · exact travLoop_succ_done g (specFn g) n ms i memo true h

/-- C10: `is_specified` on the empty output list is vacuously true (no
module is visited), and `is_specified` is true whenever no module the
backward traversal reaches has a hyperparameter dependency. -/
theorem is_specified_true_when_no_hyperps (g : Graph) (outs : List OutputId) :
    is_specified g [] = true ∧
    ((∀ m ∈ visitedBackward g outs, g.moduleHyperps m = []) →
      is_specified g outs = true) := by
  constructor
  · rfl
  · intro hall
    exact travLoop_spec_true_of_no_unset g _ _ _ _ _ hall

/-- Witness for C10 on the concrete hyperparameter-free two-module graph. -/
theorem is_specified_true_when_no_hyperps_witness :
    is_specified gChain2 [] = true ∧ is_specified gChain2 [0, 1] = true :=
  ⟨(is_specified_true_when_no_hyperps gChain2 [0, 1]).1,
   (is_specified_true_when_no_hyperps gChain2 [0, 1]).2 (by decide)⟩

/-- C3 counterexample: on a fully specified graph `is_specified` is true
and `get_unset_hyperparameters` trips its own precondition assert
(`assert not is_specified(output_lst)`) — it fails instead of returning an
empty collection, contrary to the parenthetical of the claim. -/
theorem get_unset_hyperparameters_fails_when_specified :
    is_specified gChain2 [1] = true ∧
    get_unset_hyperparameters gChain2 [1] = none := by decide

/-- C3 (amended): `is_specified(outputs)` is false iff
`get_unset_hyperparameters(outputs)` succeeds and returns a non-empty
collection; when `is_specified(outputs)` is true,
`get_unset_hyperparameters(outputs)` fails on its precondition assert
rather than returning an empty collection. -/
theorem is_specified_false_iff_unset_nonempty (g : Graph) (outs : List OutputId) :
    (is_specified g outs = false ↔
      ∃ l, get_unset_hyperparameters g outs = some l ∧ l ≠ []) ∧
    (is_specified g outs = true → get_unset_hyperparameters g outs = none) := by
  constructor
  · constructor
    · intro hf
      have hf' : travLoop g (specFn g)
          ((extract_unique_modules g outs).length + g.modules.length + 1)
          (extract_unique_modules g outs) 0 [] true = false := hf
      obtain ⟨x, hx, hmem⟩ := travLoop_spec_false_unset g _ _ _ _ [] hf'
      refine ⟨travLoop g (hsFn g)
          ((extract_unique_modules g outs).length + g.modules.length + 1)
          (extract_unique_modules g outs) 0 [] [], ?_, ?_⟩
      · unfold get_unset_hyperparameters
        rw [hf]
        rfl
      · intro hnil
        rw [hnil] at hmem
        exact (List.not_mem_nil x) hmem
    · rintro ⟨l, hl, _⟩
      by_contra htrue
      have hT : is_specified g outs = true := by
        cases hv : is_specified g outs
        · exact absurd hv htrue
        · rfl
      unfold get_unset_hyperparameters at hl
      rw [hT] at hl
      simp at hl
  · intro ht
    unfold get_unset_hyperparameters
    rw [ht]
    rfl

/-- Witness for C3 on the concrete graph with one unset hyperparameter. -/
theorem is_specified_false_iff_unset_nonempty_witness :
    ∃ l, get_unset_hyperparameters gChain2Unset [1] = some l ∧ l ≠ [] :=
  (is_specified_false_iff_unset_nonempty gChain2Unset [1]).1.mp (by decide)

/-- Unfolding of `evalLoop` at positive fuel. -/
theorem evalLoop_succ (g : Graph) (fuel : Nat) (ms : List ModuleId) (i : Nat)
    (memo : List ModuleId) (imemo : List InputId) (seq : List ModuleId) :
    evalLoop g (fuel + 1) ms i memo imemo seq =
      if h : i < ms.length then
        if eligible g memo imemo ms[i] then
          evalLoop g fuel (ms ++ (newSatisfied g ms[i]).map g.inputModule) (i + 1)
            (memo ++ [ms[i]]) (imemo ++ newSatisfied g ms[i]) (seq ++ [ms[i]])
        else evalLoop g fuel ms (i + 1) memo imemo seq
      else seq := rfl

/-- Every element produced by the fan-out concatenation fold comes from the
initial accumulator or from the fan-out of one of the scanned outputs. -/
theorem mem_appendFold (g : Graph) :
    ∀ (l : List OutputId) (a : List InputId) (x : InputId),
      x ∈ l.foldl (fun a ox => a ++ g.toInputs ox) a →
      x ∈ a ∨ ∃ ox ∈ l, x ∈ g.toInputs ox := by
  intro l
  induction l with
  | nil => intro a x hx; exact Or.inl hx
  | cons o t ih =>
      intro a x hx
      rw [List.foldl_cons] at hx
      rcases ih _ x hx with hax | ⟨ox, hox, hxo⟩
      · rcases List.mem_append.mp hax with h1 | h2
        · exact Or.inl h1
        · exact Or.inr ⟨o, List.mem_cons_self o t, h2⟩
      · exact Or.inr ⟨ox, List.mem_cons_of_mem o hox, hxo⟩

/-- Every input marked satisfied when a module is appended is connected to
one of that module's outputs. -/
theorem mem_newSatisfied (g : Graph) (m : ModuleId) (x : InputId)
    (hx : x ∈ newSatisfied g m) : ∃ ox ∈ g.moduleOutputs m, x ∈ g.toInputs ox := by
  rcases mem_appendFold g _ [] x hx with h | h
  · cases h
  · exact h

/-- Appending a module whose inputs are all seeds or fed by already
sequenced modules preserves the satisfaction property of the sequence. -/
theorem evalSeqOk_append (g : Graph) (seeds : List InputId) (seq : List ModuleId)
    (m : ModuleId) (hok : evalSeqOk g seeds seq)
    (hm : ∀ ix ∈ g.moduleInputs m, ix ∈ seeds ∨
      ∃ m' ∈ seq, ∃ ox ∈ g.moduleOutputs m', ix ∈ g.toInputs ox) :
    evalSeqOk g seeds (seq ++ [m]) := by
  intro j mj hj ix hix
  rcases lt_trichotomy j seq.length with hlt | heq | hgt
  · rw [List.getElem?_append_left hlt] at hj
    rcases hok j mj hj ix hix with hseed | ⟨k, m', hk, hkget, hout⟩
    · exact Or.inl hseed
    · refine Or.inr ⟨k, m', hk, ?_, hout⟩
      rw [List.getElem?_append_left (lt_trans hk hlt)]
      exact hkget
  · subst heq
    rw [List.getElem?_concat_length] at hj
    have hjm : mj = m := by injection hj with hj; exact hj.symm
    subst hjm
    rcases hm ix hix with hseed | ⟨m', hm', ox, hox, hxo⟩
    · exact Or.inl hseed
    · obtain ⟨k, hkget⟩ := List.mem_iff_getElem?.mp hm'
      have hk : k < seq.length := by
        rcases List.getElem?_eq_some.mp hkget with ⟨hlt2, _⟩
        exact hlt2
      refine Or.inr ⟨k, m', hk, ?_, ox, hox, hxo⟩
      rw [List.getElem?_append_left hk]
      exact hkget
  · have hnone : (seq ++ [m])[j]? = none := by
      apply List.getElem?_eq_none
      rw [List.length_append]
      simpa using hgt
    rw [hnone] at hj
    cases hj

/-- The worklist loop of `determine_module_eval_seq` preserves and
establishes its correctness invariant: the processed-module memo equals
the emitted sequence (both only ever receive the current module,
together), the sequence has no duplicates, every satisfied input is a seed
or fed by a sequenced module, and the sequence satisfies the
inputs-satisfied-before-run property. -/
theorem evalLoop_invariant (g : Graph) (seeds : List InputId) :
    ∀ fuel ms i imemo seq,
      seq.Nodup → imemoOk g seeds seq imemo → evalSeqOk g seeds seq →
      (evalLoop g fuel ms i seq imemo seq).Nodup ∧
      evalSeqOk g seeds (evalLoop g fuel ms i seq imemo seq) := by
  intro fuel
  induction fuel with
  | zero => intro ms i imemo seq h1 _ h3; exact ⟨h1, h3⟩
  | succ n ih =>
      intro ms i imemo seq h1 h2 h3
      by_cases h : i < ms.length
      · by_cases hg : eligible g seq imemo ms[i]
        · rw [evalLoop_succ, dif_pos h, if_pos hg]
          apply ih
          · rw [← List.concat_eq_append]
            exact List.Nodup.concat hg.1 h1
          · intro ix hix
            rcases List.mem_append.mp hix with hold | hnew
            · rcases h2 ix hold with hs | ⟨m', hm', rest⟩
              · exact Or.inl hs
              · exact Or.inr ⟨m', List.mem_append_left _ hm', rest⟩
            · obtain ⟨ox, hox, hxo⟩ := mem_newSatisfied g _ ix hnew
              exact Or.inr ⟨ms[i],
                List.mem_append_right _ (List.mem_singleton.mpr rfl), ox, hox, hxo⟩
          · apply evalSeqOk_append g seeds seq _ h3
            intro ix hix
            exact h2 ix (hg.2 ix hix)
        · rw [evalLoop_succ, dif_pos h, if_neg hg]
          exact ih ms (i + 1) imemo seq h1 h2 h3
      · rw [evalLoop_succ, dif_neg h]
        exact ⟨h1, h3⟩

/-- C4: the module evaluation sequence contains each module at most once,
and for every module of the sequence, each of its declared inputs is either
one of the seed inputs or is connected to an output of a module appearing
strictly earlier in the sequence.  (This safety property holds for every
input list, whether or not the unchecked sufficiency precondition is
met.) -/
theorem determine_module_eval_seq_ok (g : Graph) (inputs : List InputId) :
    (determine_module_eval_seq g inputs).Nodup ∧
    evalSeqOk g inputs (determine_module_eval_seq g inputs) :=
  evalLoop_invariant g inputs _ _ 0 inputs [] List.nodup_nil
    (fun _ h => Or.inl h) (fun _ _ hj => by simp at hj)

/-- Witness for C4 on the concrete three-module chain. -/
theorem determine_module_eval_seq_ok_witness :
    determine_module_eval_seq gChain3 [0] = [0, 1, 2] ∧
    (determine_module_eval_seq gChain3 [0]).Nodup ∧
    evalSeqOk gChain3 [0] (determine_module_eval_seq gChain3 [0]) :=
  ⟨by decide, (determine_module_eval_seq_ok gChain3 [0]).1,
   (determine_module_eval_seq_ok gChain3 [0]).2⟩

end DArch
